import Mathlib

/-!
Formal model of the ranking-and-allocation pipeline of `daily_trader.py`:
score computation (`compute_score`), ranking (`pick_top_symbols`) and budget
allocation (`allocate_budget`), embedded over exact rationals.  Python floats
are modelled by `ℚ`; fallible computations return `Option`.
-/

/-- Round-half-to-even of a rational to the nearest integer, modelling the
rounding mode of Python's built-in `round` on the exact value. -/
def rndHalfEven (q : ℚ) : ℤ :=
  if q - ⌊q⌋ < 1/2 then ⌊q⌋
  else if 1/2 < q - ⌊q⌋ then ⌊q⌋ + 1
  else if ⌊q⌋ % 2 = 0 then ⌊q⌋ else ⌊q⌋ + 1

/-- Python's `round(x, d)`: round to `d` decimal places, half to even. -/
def roundTo (d : ℕ) (x : ℚ) : ℚ := (rndHalfEven (x * 10 ^ d) : ℚ) / 10 ^ d

/-- The metrics dict returned by `compute_score` (lines 116-123 of
`daily_trader.py`). -/
structure ScoreResult where
  score : ℚ
  momentum_10d : ℚ
  rsi : ℚ
  sma20 : ℚ
  sma50 : ℚ
  price : ℚ
  deriving DecidableEq

/-- `close.iloc[-k]`: the `k`-th element counted from the end of the series
(defaulting to `0` out of range; `compute_score` only uses it in range). -/
def ilocNeg (l : List ℚ) (k : ℕ) : ℚ := l.getD (l.length - k) 0

/-- Arithmetic mean of a list; `Series.rolling(n).mean().iloc[-1]` is the mean
of the last `n` entries. -/
def listMean (l : List ℚ) : ℚ := l.sum / l.length

/-- The last `n` elements of a list: the rolling window that ends at the most
recent row. -/
def lastWindow (n : ℕ) (l : List ℚ) : List ℚ := l.drop (l.length - n)

/-- `close.pct_change(1).iloc[-1]` (line 110): the most recent single-day
fractional change.  `none` models a NaN value (fewer than two points, or a
`0/0` when both the previous and the latest close are zero).  A zero previous
close with a nonzero latest close yields an IEEE infinity in the source, which
has no rational counterpart and is likewise modelled as undefined. -/
def pctChange1 (closes : List ℚ) : Option ℚ :=
  if 2 ≤ closes.length ∧ ilocNeg closes 2 ≠ 0 then
    some (ilocNeg closes 1 / ilocNeg closes 2 - 1)
  else none

/-- Contribution of the most recent single-day change to the score
(lines 109-114): `recent_change * 5.0` when defined, `0` when NaN. -/
def recentTerm (closes : List ℚ) : ℚ :=
  match pctChange1 closes with
  | some c => c * 5.0
  | none => 0

/-- The RSI component of the score: the `if`/`elif` chain of lines 95-100. -/
def rsiBucket (rsi : ℚ) : ℚ :=
  if rsi < 30 then 0.8
  else if 40 ≤ rsi ∧ rsi ≤ 70 then 0.7
  else if 75 < rsi then -0.8
  else 0

/-- Last value of an exponentially weighted mean with smoothing factor
`alpha` and `adjust=False`: `a 0 = x 0`, `a t = a (t-1) + alpha * (x t - a (t-1))`. -/
def ewmLast (alpha : ℚ) : List ℚ → ℚ
  | [] => 0
  | x :: xs => xs.foldl (fun a y => a + alpha * (y - a)) x

/-- One-day differences of the close series, as `Series.diff(1)` (without its
leading NaN). -/
def diffs (closes : List ℚ) : List ℚ :=
  List.zipWith (fun b a => b - a) closes.tail closes

/-- Modelled from the spec: the 14-period relative-strength index produced by
the external `ta.momentum.RSIIndicator` library (not part of this repository).
Wilder smoothing (EWM with factor `1/14`, `adjust=False`) of the gains and the
losses of the one-day differences, with a leading zero for the masked first
difference; `none` models a NaN result, i.e. fewer than 14 differences (the
`min_periods` mask) or a series with no variance, where the average gain and
the average loss are both zero and `rs = 0/0` is undefined. -/
def rsi14 (closes : List ℚ) : Option ℚ :=
  let ds := diffs closes
  if ds.length < 14 then none
  else
    let g := ewmLast (1/14) (0 :: ds.map (fun d => max d 0))
    let l := ewmLast (1/14) (0 :: ds.map (fun d => max (-d) 0))
    if g + l = 0 then none else some (100 * g / (g + l))

/-- The 10-day momentum of lines 66-68: `close[-1]/close[-10] - 1` when at
least 10 points exist, else `0.0`. -/
def momentum10 (closes : List ℚ) : ℚ :=
  if 10 ≤ closes.length then ilocNeg closes 1 / ilocNeg closes 10 - 1 else 0.0

/-- The RSI actually used by the score (lines 71-78): the indicator value, or
the neutral default `50.0` when it is undefined. -/
def rsiVal (closes : List ℚ) : ℚ := (rsi14 closes).getD 50.0

/-- `close.rolling(n).mean().iloc[-1]` when the window fits, else the latest
close (lines 82-83). -/
def smaLast (n : ℕ) (closes : List ℚ) : ℚ :=
  if n ≤ closes.length then listMean (lastWindow n closes) else ilocNeg closes 1

/-- `compute_score` (lines 45-132): `none` when fewer than 20 closes are
available; otherwise the 10-day momentum, the RSI (neutral `50.0` when the
indicator is undefined), the two SMAs (falling back to the latest close when
the window does not fit) and the additive composite score. -/
def compute_score (closes : List ℚ) : Option ScoreResult :=
  if closes.length < 20 then none
  else
    some
      { score := momentum10 closes * 10.0 + rsiBucket (rsiVal closes)
          + (if smaLast 50 closes < smaLast 20 closes then 0.8 else -0.2)
          + recentTerm closes
        momentum_10d := momentum10 closes
        rsi := rsiVal closes
        sma20 := smaLast 20 closes
        sma50 := smaLast 50 closes
        price := ilocNeg closes 1 }

/-- A `ScoreResult` tagged with its symbol, as after
`score_obj.update({"symbol": s})` on line 153. -/
structure SymbolScore where
  symbol : String
  score : ℚ
  momentum_10d : ℚ
  rsi : ℚ
  sma20 : ℚ
  sma50 : ℚ
  price : ℚ
  deriving DecidableEq

/-- Attach the (normalized) symbol name to a score result. -/
def withSymbol (s : String) (r : ScoreResult) : SymbolScore :=
  { symbol := s, score := r.score, momentum_10d := r.momentum_10d, rsi := r.rsi,
    sma20 := r.sma20, sma50 := r.sma50, price := r.price }

/-- The `results` list built by the loop of `pick_top_symbols`
(lines 139-158): each symbol is trimmed and upper-cased, its history fetched
through the price-series source (`none` on unavailability), scored, and the
survivors are kept in input order. -/
def scoredResults (fetch : String → Option (List ℚ)) (univ : List String) :
    List SymbolScore :=
  univ.filterMap fun sym =>
    (fetch (sym.trim.toUpper)).bind fun closes =>
      (compute_score closes).map (withSymbol (sym.trim.toUpper))

/-- The descending-score ordering used by the sort on line 166. -/
def scoreGe (a b : SymbolScore) : Prop := b.score ≤ a.score

instance : DecidableRel scoreGe :=
  fun a b => inferInstanceAs (Decidable (b.score ≤ a.score))

instance : IsTotal SymbolScore scoreGe := ⟨fun a b => le_total b.score a.score⟩

instance : IsTrans SymbolScore scoreGe := ⟨fun _ _ _ hab hbc => le_trans hbc hab⟩

/-- `pick_top_symbols` (lines 135-170): score the whole universe, return `[]`
when nothing qualifies, otherwise sort by score descending and keep the first
`top_n` rows.  The source sorts with the default pandas quicksort, whose order
on equal keys is implementation-defined; the model uses a concrete sort, and
only tie-agnostic facts (length, descending sortedness) are proved about it. -/
def pick_top_symbols (fetch : String → Option (List ℚ)) (univ : List String)
    (top_n : ℕ) : List SymbolScore :=
  let results := scoredResults fetch univ
  if results.isEmpty then []
  else (List.insertionSort scoreGe results).take top_n

/-- One row of the allocation plan (lines 188-198 of `daily_trader.py`). -/
structure AllocationEntry where
  symbol : String
  price : ℚ
  score : ℚ
  rsi : ℚ
  allocation : ℚ
  shares : ℚ
  cost : ℚ
  take_profit_price : ℚ
  stop_loss_price : ℚ
  deriving DecidableEq

/-- The loop of `allocate_budget` (lines 180-198), one pick at a time.
`none` models the uncaught `ZeroDivisionError` raised by `per / price` when a
pick carries a `0.0` price. -/
def buildPlan (per tp sl : ℚ) : List SymbolScore → Option (List AllocationEntry)
  | [] => some []
  | p :: rest =>
    if p.price = 0 then none
    else
      match buildPlan per tp sl rest with
      | none => none
      | some plan =>
        some ({ symbol := p.symbol, price := p.price, score := p.score, rsi := p.rsi,
                allocation := roundTo 2 per,
                shares := roundTo 4 (per / p.price),
                cost := roundTo 2 (roundTo 4 (per / p.price) * p.price),
                take_profit_price := roundTo 2 (p.price * (1 + tp)),
                stop_loss_price := roundTo 2 (p.price * (1 - sl)) } :: plan)

/-- `allocate_budget` (lines 173-199): an empty picks list short-circuits to an
empty plan before the division `budget / n` is reached; otherwise the budget is
split evenly and each pick is converted to an allocation entry. -/
def allocate_budget (budget : ℚ) (picks : List SymbolScore) (tp sl : ℚ) :
    Option (List AllocationEntry) :=
  if picks.length = 0 then some []
  else buildPlan (budget / (picks.length : ℚ)) tp sl picks

/-- The per-pick allocation formulas exactly as section 4.3 of the
specification words them, named separately for the refinement proof against
`allocate_budget`. -/
def specEntry (per tp sl : ℚ) (p : SymbolScore) : AllocationEntry :=
  { symbol := p.symbol, price := p.price, score := p.score, rsi := p.rsi,
    allocation := roundTo 2 per,
    shares := roundTo 4 (per / p.price),
    cost := roundTo 2 (roundTo 4 (per / p.price) * p.price),
    take_profit_price := roundTo 2 (p.price * (1 + tp)),
    stop_loss_price := roundTo 2 (p.price * (1 - sl)) }

/-- A flat price series: exactly 20 closes, all at 100. -/
def flat20 : List ℚ := List.replicate 20 100

/-- The score result of the flat series, for concrete witnesses. -/
def flatScore : ScoreResult :=
  { score := 1/2, momentum_10d := 0, rsi := 50, sma20 := 100, sma50 := 100, price := 100 }

/-- A concrete pick priced at 50, for concrete witnesses. -/
def d50pick : SymbolScore :=
  { symbol := "XYZ", score := 1, momentum_10d := 0, rsi := 50,
    sma20 := 50, sma50 := 50, price := 50 }

/-- A concrete pick with a zero price. -/
def zeroPick : SymbolScore :=
  { symbol := "ZRO", score := 0, momentum_10d := 0, rsi := 50,
    sma20 := 0, sma50 := 0, price := 0 }

/-- The plan produced for budget 100 on the single pick priced 50. -/
def c4plan : List AllocationEntry :=
  [{ symbol := "XYZ", price := 50, score := 1, rsi := 50, allocation := 100,
     shares := 2, cost := 100, take_profit_price := 55, stop_loss_price := 95/2 }]

/-- The plan produced for budget `-100` on the single pick priced 50. -/
def c10plan : List AllocationEntry :=
  [{ symbol := "XYZ", price := 50, score := 1, rsi := 50, allocation := -100,
     shares := -2, cost := -100, take_profit_price := 55, stop_loss_price := 95/2 }]

/-- The single entry produced for budget `-0.001` on the pick priced 50: the
monetary fields all round to zero. -/
def c10cexEntry : AllocationEntry :=
  { symbol := "XYZ", price := 50, score := 1, rsi := 50, allocation := 0,
    shares := 0, cost := 0, take_profit_price := 55, stop_loss_price := 95/2 }

theorem abs_rndHalfEven_sub (q : ℚ) : |(rndHalfEven q : ℚ) - q| ≤ 1/2 := by
  have h0 : (⌊q⌋ : ℚ) ≤ q := Int.floor_le q
  have h1 : q < ⌊q⌋ + 1 := Int.lt_floor_add_one q
  rw [rndHalfEven]
  split_ifs with hlt hgt hev
  · rw [abs_le]; constructor <;> linarith
  · rw [abs_le]; push_cast; constructor <;> linarith
  · rw [abs_le]; constructor <;> linarith [not_lt.1 hlt, not_lt.1 hgt]
  · rw [abs_le]; push_cast; constructor <;> linarith [not_lt.1 hlt, not_lt.1 hgt]

theorem rndHalfEven_nonpos (q : ℚ) (hq : q ≤ 0) : rndHalfEven q ≤ 0 := by
  have hfl : ⌊q⌋ ≤ 0 := Int.floor_nonpos hq
  have h0 : (⌊q⌋ : ℚ) ≤ q := Int.floor_le q
  rw [rndHalfEven]
  split_ifs with hlt hgt hev
  · exact hfl
  · have hx : (⌊q⌋ : ℚ) < 0 := by linarith
    have hz : ⌊q⌋ < 0 := by exact_mod_cast hx
    omega
  · exact hfl
  · have hf : q - ⌊q⌋ = 1/2 := le_antisymm (not_lt.1 hgt) (not_lt.1 hlt)
    have hx : (⌊q⌋ : ℚ) < 0 := by linarith
    have hz : ⌊q⌋ < 0 := by exact_mod_cast hx
    omega

theorem abs_roundTo_sub_le (d : ℕ) (x : ℚ) : |roundTo d x - x| ≤ 1 / (2 * 10 ^ d) := by
  have h10 : (0:ℚ) < 10 ^ d := by positivity
  have h := abs_rndHalfEven_sub (x * 10 ^ d)
  have heq : roundTo d x - x = ((rndHalfEven (x * 10 ^ d) : ℚ) - x * 10 ^ d) / 10 ^ d := by
    rw [roundTo]; field_simp; ring
  rw [heq, abs_div, abs_of_pos h10, div_le_iff₀ h10]
  calc |(rndHalfEven (x * 10 ^ d) : ℚ) - x * 10 ^ d| ≤ 1/2 := h
    _ = 1 / (2 * 10 ^ d) * 10 ^ d := by field_simp

theorem roundTo_nonpos (d : ℕ) (x : ℚ) (hx : x ≤ 0) : roundTo d x ≤ 0 := by
  have h10 : (0:ℚ) < 10 ^ d := by positivity
  have hy : x * 10 ^ d ≤ 0 := mul_nonpos_iff.2 (Or.inr ⟨hx, h10.le⟩)
  have hr : ((rndHalfEven (x * 10 ^ d) : ℤ) : ℚ) ≤ 0 := by
    exact_mod_cast rndHalfEven_nonpos _ hy
  exact div_nonpos_iff.2 (Or.inr ⟨hr, h10.le⟩)

/-- Claim C6: `compute_score` returns the null result exactly when the series
has fewer than 20 closes; with 20 or more closes a `ScoreResult` is always
produced, the internal RSI/SMA fallbacks never yield `none`. -/
theorem compute_score_none_iff (closes : List ℚ) :
    compute_score closes = none ↔ closes.length < 20 := by
  rw [compute_score]
  split_ifs with h <;> simp [h]

/-- Claim C1: whenever `compute_score` produces a result, its score is the
additive composite of the momentum term, the RSI bucket bonus, the SMA-relation
bonus and the recent-change term. -/
theorem compute_score_composite (closes : List ℚ) (r : ScoreResult)
    (h : compute_score closes = some r) :
    r.score = r.momentum_10d * 10.0 + rsiBucket r.rsi
      + (if r.sma50 < r.sma20 then (0.8 : ℚ) else -0.2) + recentTerm closes := by
  rw [compute_score] at h
  by_cases hl : closes.length < 20
  · rw [if_pos hl] at h
    cases h
  · rw [if_neg hl] at h
    injection h with h
    subst h
    rfl

/-- Witness for C1 at the concrete flat 20-close series. -/
theorem compute_score_composite_witness :
    flatScore.score = flatScore.momentum_10d * 10.0 + rsiBucket flatScore.rsi
      + (if flatScore.sma50 < flatScore.sma20 then (0.8 : ℚ) else -0.2)
      + recentTerm flat20 :=
  compute_score_composite flat20 flatScore
    (by set_option maxRecDepth 4000 in with_unfolding_all decide)

/-- Claim C2 counterexample: on the flat series of 20 closes at 100 the score
is `0.5`, not approximately `-0.2`: the substituted neutral RSI of 50 falls in
the 40-70 bucket and contributes `+0.7` on top of the `-0.2` SMA branch. -/
theorem compute_score_flat_cex :
    (compute_score flat20).map ScoreResult.score = some (1/2)
      ∧ ((1:ℚ)/2) ≠ -0.2 := by
  set_option maxRecDepth 4000 in with_unfolding_all decide

/-- Claim C2 (amended): on the flat series of exactly 20 closes at 100,
`compute_score` returns momentum `0`, rsi `50` (neutral substitute), both SMAs
equal to `100`, and a total score of `0.5` (`+0.7` from the RSI bucket at 50,
`-0.2` from the SMA branch). -/
theorem compute_score_flat_eval :
    compute_score flat20
      = some { score := 1/2, momentum_10d := 0, rsi := 50,
               sma20 := 100, sma50 := 100, price := 100 } := by
  set_option maxRecDepth 4000 in with_unfolding_all decide


/-- Claim C3: the ranker's output has length `min top_n (count of valid
results)`, is sorted by score descending, and an empty result set yields the
empty sequence rather than an error. -/
theorem pick_top_symbols_spec (fetch : String → Option (List ℚ))
    (univ : List String) (top_n : ℕ) :
    (pick_top_symbols fetch univ top_n).length
        = min top_n (scoredResults fetch univ).length
      ∧ List.Sorted scoreGe (pick_top_symbols fetch univ top_n)
      ∧ (scoredResults fetch univ = [] → pick_top_symbols fetch univ top_n = []) := by
  unfold pick_top_symbols
  by_cases h : (scoredResults fetch univ).isEmpty
  · have he : scoredResults fetch univ = [] := by
      cases hres : scoredResults fetch univ
      · rfl
      · rw [hres] at h; cases h
    simp [h, he]
  · have hlen : (List.insertionSort scoreGe (scoredResults fetch univ)).length
        = (scoredResults fetch univ).length :=
      (List.perm_insertionSort scoreGe _).length_eq
    refine ⟨?_, ?_, ?_⟩
    · simp [h, List.length_take, hlen]
    · simp only [if_neg h]
      exact (List.sorted_insertionSort scoreGe _).sublist (List.take_sublist _ _)
    · intro he
      exact absurd (by simp [he]) h

/-- Witness for C3 with a source that has no data for the only symbol: the
ranker returns the empty sequence. -/
theorem pick_top_symbols_spec_witness :
    pick_top_symbols (fun _ => none) ["AAPL"] 3 = [] :=
  (pick_top_symbols_spec (fun _ => none) ["AAPL"] 3).2.2 rfl

theorem buildPlan_eq_map (per tp sl : ℚ) (l : List SymbolScore)
    (h : ∀ p ∈ l, p.price ≠ 0) :
    buildPlan per tp sl l = some (l.map (specEntry per tp sl)) := by
  induction l with
  | nil => rfl
  | cons p rest ih =>
    have hp : p.price ≠ 0 := h p (List.mem_cons_self p rest)
    have hr := ih fun q hq => h q (List.mem_cons_of_mem p hq)
    simp only [buildPlan, if_neg hp, hr, List.map]
    rfl

theorem buildPlan_none_of_zero (per tp sl : ℚ) (l : List SymbolScore)
    (p : SymbolScore) (hp : p ∈ l) (h0 : p.price = 0) :
    buildPlan per tp sl l = none := by
  induction l with
  | nil => cases hp
  | cons a rest ih =>
    rcases List.mem_cons.1 hp with rfl | hmem
    · simp [buildPlan, h0]
    · by_cases ha : a.price = 0
      · simp [buildPlan, ha]
      · simp only [buildPlan, if_neg ha, ih hmem]

/-- Claim C5: on a non-empty picks list with positive prices,
`allocate_budget` returns exactly the spec's per-pick formulas applied to the
even split `per_symbol = budget / count(picks)`, one entry per pick in order. -/
theorem allocate_budget_formulas (budget tp sl : ℚ) (picks : List SymbolScore)
    (hne : picks ≠ []) (hpos : ∀ p ∈ picks, 0 < p.price) :
    allocate_budget budget picks tp sl
      = some (picks.map (specEntry (budget / (picks.length : ℚ)) tp sl)) := by
  rw [allocate_budget, if_neg (by simpa using hne)]
  exact buildPlan_eq_map _ tp sl picks fun p hp => (hpos p hp).ne'

/-- Witness for C5, Scenario D: price 50, `take_profit_pct = 0.10`,
`stop_loss_pct = 0.05` give targets 55.00 and 47.50. -/
theorem allocate_budget_formulas_witness :
    (allocate_budget 100 [d50pick] (1/10) (1/20)).map
        (List.map AllocationEntry.take_profit_price) = some [(55 : ℚ)]
      ∧ (allocate_budget 100 [d50pick] (1/10) (1/20)).map
        (List.map AllocationEntry.stop_loss_price) = some [(95/2 : ℚ)] := by
  have h := allocate_budget_formulas 100 (1/10) (1/20) [d50pick] (by simp)
    (by with_unfolding_all decide)
  rw [h]
  with_unfolding_all decide

/-- Claim C7: for the empty picks list the result is the empty plan, produced
by the early-return branch before the division `budget / n` is reached, for
every budget and every pair of percentages. -/
theorem allocate_budget_empty (budget tp sl : ℚ) :
    allocate_budget budget [] tp sl = some [] := rfl

/-- Claim C9: a pick with a zero price makes `allocate_budget` fail (the model
of the uncaught `ZeroDivisionError` of `per / price`); the entry is not
skipped, so a nonzero price for every pick is a precondition. -/
theorem allocate_budget_zero_price (budget tp sl : ℚ) (picks : List SymbolScore)
    (p : SymbolScore) (hp : p ∈ picks) (h0 : p.price = 0) :
    allocate_budget budget picks tp sl = none := by
  have hne : picks ≠ [] := by
    intro he
    exact List.not_mem_nil p (he ▸ hp)
  rw [allocate_budget, if_neg (by simpa using hne)]
  exact buildPlan_none_of_zero _ tp sl picks p hp h0

/-- Witness for C9 at a concrete single zero-priced pick. -/
theorem allocate_budget_zero_price_witness :
    allocate_budget 100 [zeroPick] (1/10) (1/20) = none :=
  allocate_budget_zero_price 100 (1/10) (1/20) [zeroPick] zeroPick
    (List.mem_singleton.2 rfl) rfl

theorem sum_alloc_map (per tp sl : ℚ) (l : List SymbolScore) :
    ((l.map (specEntry per tp sl)).map AllocationEntry.allocation).sum
      = (l.length : ℚ) * roundTo 2 per := by
  induction l with
  | nil => simp
  | cons p rest ih =>
    simp only [List.map_cons, List.sum_cons, ih, List.length_cons]
    show roundTo 2 per + (rest.length : ℚ) * roundTo 2 per = _
    push_cast
    ring

/-- Claim C4: for a non-empty picks list with positive prices, the allocations
of the returned plan sum to `round(budget, 2)` within `count(picks) * 0.01`. -/
theorem allocate_budget_sum_close (budget tp sl : ℚ) (picks : List SymbolScore)
    (hne : picks ≠ []) (hpos : ∀ p ∈ picks, 0 < p.price)
    (plan : List AllocationEntry)
    (hplan : allocate_budget budget picks tp sl = some plan) :
    |(plan.map AllocationEntry.allocation).sum - roundTo 2 budget|
      ≤ (picks.length : ℚ) * (1/100) := by
  have hkey : allocate_budget budget picks tp sl
      = some (picks.map (specEntry (budget / (picks.length : ℚ)) tp sl)) := by
    rw [allocate_budget, if_neg (by simpa using hne)]
    exact buildPlan_eq_map _ tp sl picks fun p hp => (hpos p hp).ne'
  rw [hkey] at hplan
  injection hplan with hplan
  subst hplan
  rw [sum_alloc_map]
  have hlen : 1 ≤ picks.length := List.length_pos.2 hne
  have hn1 : (1:ℚ) ≤ (picks.length : ℚ) := by exact_mod_cast hlen
  have hn0 : (0:ℚ) < (picks.length : ℚ) := by linarith
  have hb : (picks.length : ℚ) * (budget / (picks.length : ℚ)) = budget := by
    field_simp
  have h1 := abs_roundTo_sub_le 2 (budget / (picks.length : ℚ))
  have h2 := abs_roundTo_sub_le 2 budget
  norm_num at h1 h2
  obtain ⟨l1, u1⟩ := abs_le.1 h1
  obtain ⟨l2, u2⟩ := abs_le.1 h2
  have e1 : (picks.length : ℚ)
        * (roundTo 2 (budget / (picks.length : ℚ)) - budget / (picks.length : ℚ))
      ≤ (picks.length : ℚ) * (1/200) :=
    mul_le_mul_of_nonneg_left u1 hn0.le
  have e2 : (picks.length : ℚ) * (-(1/200))
      ≤ (picks.length : ℚ)
        * (roundTo 2 (budget / (picks.length : ℚ)) - budget / (picks.length : ℚ)) :=
    mul_le_mul_of_nonneg_left l1 hn0.le
  have e3 : (picks.length : ℚ)
        * (roundTo 2 (budget / (picks.length : ℚ)) - budget / (picks.length : ℚ))
      = (picks.length : ℚ) * roundTo 2 (budget / (picks.length : ℚ)) - budget := by
    rw [mul_sub, hb]
  rw [abs_le]
  constructor <;> nlinarith [e1, e2, e3]

/-- Witness for C4: budget 100 on one pick priced 50 allocates exactly 100. -/
theorem allocate_budget_sum_close_witness :
    |((c4plan.map AllocationEntry.allocation).sum - roundTo 2 100)|
      ≤ (([d50pick] : List SymbolScore).length : ℚ) * (1/100) :=
  allocate_budget_sum_close 100 (1/10) (1/20) [d50pick] (by simp)
    (by with_unfolding_all decide) c4plan (by with_unfolding_all decide)

/-- Claim C10 (amended): neither branch of `allocate_budget` inspects the sign
or magnitude of the budget: every rational budget, zero and negative included,
yields a plan with one entry per pick in input order and
`allocation = round(budget / count(picks), 2)`; a negative budget yields
non-positive allocations, shares and costs (strictly negative only when the
rounded magnitudes do not collapse to zero). -/
theorem allocate_budget_sign_unchecked (budget tp sl : ℚ)
    (picks : List SymbolScore) (hne : picks ≠ [])
    (hpos : ∀ p ∈ picks, 0 < p.price) :
    (allocate_budget budget picks tp sl).isSome = true
      ∧ ∀ plan, allocate_budget budget picks tp sl = some plan →
          plan.length = picks.length
          ∧ plan.map AllocationEntry.symbol = picks.map SymbolScore.symbol
          ∧ (∀ e ∈ plan, e.allocation = roundTo 2 (budget / (picks.length : ℚ)))
          ∧ (budget < 0 → ∀ e ∈ plan,
              e.allocation ≤ 0 ∧ e.shares ≤ 0 ∧ e.cost ≤ 0) := by
  have hkey : allocate_budget budget picks tp sl
      = some (picks.map (specEntry (budget / (picks.length : ℚ)) tp sl)) := by
    rw [allocate_budget, if_neg (by simpa using hne)]
    exact buildPlan_eq_map _ tp sl picks fun p hp => (hpos p hp).ne'
  refine ⟨by rw [hkey]; rfl, ?_⟩
  intro plan hplan
  rw [hkey] at hplan
  injection hplan with hplan
  subst hplan
  refine ⟨List.length_map _ _, by rw [List.map_map]; rfl, ?_, ?_⟩
  · intro e he
    obtain ⟨p, hp, rfl⟩ := List.mem_map.1 he
    rfl
  · intro hneg e he
    obtain ⟨p, hp, rfl⟩ := List.mem_map.1 he
    have hn : (0:ℚ) < (picks.length : ℚ) := by
      exact_mod_cast List.length_pos.2 hne
    have hper : budget / (picks.length : ℚ) < 0 := div_neg_of_neg_of_pos hneg hn
    have hpp := hpos p hp
    have hsh : roundTo 4 (budget / (picks.length : ℚ) / p.price) ≤ 0 :=
      roundTo_nonpos 4 _ (div_neg_of_neg_of_pos hper hpp).le
    exact ⟨roundTo_nonpos 2 _ hper.le, hsh,
      roundTo_nonpos 2 _ (mul_nonpos_iff.2 (Or.inr ⟨hsh, hpp.le⟩))⟩

/-- Witness for C10 at the concrete budget `-100`: the plan is produced and
its entries are non-positive. -/
theorem allocate_budget_sign_unchecked_witness :
    (allocate_budget (-100) [d50pick] (1/10) (1/20)).isSome = true
      ∧ (∀ e ∈ c10plan, e.allocation ≤ 0 ∧ e.shares ≤ 0 ∧ e.cost ≤ 0) := by
  have h := allocate_budget_sign_unchecked (-100) (1/10) (1/20) [d50pick]
    (by simp) (by with_unfolding_all decide)
  exact ⟨h.1, (h.2 c10plan (by with_unfolding_all decide)).2.2.2 (by norm_num)⟩

/-- Claim C10 counterexample: at budget `-0.001` with one pick priced 50, the
plan's allocation, shares and cost all round to `0`, which is not negative, so
a negative budget does not always yield negative entries. -/
theorem allocate_budget_tiny_negative_cex :
    (-1/1000 : ℚ) < 0
      ∧ allocate_budget (-1/1000) [d50pick] (1/10) (1/20) = some [c10cexEntry]
      ∧ ¬ c10cexEntry.allocation < 0 ∧ ¬ c10cexEntry.shares < 0
      ∧ ¬ c10cexEntry.cost < 0 := by
  with_unfolding_all decide
